import Mathlib

/-!
Verification of the Vc padded-memory / vector-chunk core.

The repository ships an example (`examples/finitediff/main.cpp`) and a test
(`tests/memory.cpp`) of the Vc library; the library core itself (the
`Vc::Memory` container and the `Vc::Vector` value type) is not part of the
source tree, so the container and vector operations below are modelled from
the specification.  Scalar element values are modelled as rationals (the
claims only involve exact values: integer ramps, broadcast constants, and
exact divisions, none of which round in the element types used).
-/

namespace Vc

/-- Modelled from the spec: the padded size of the container,
`paddedCount = logicalCount + ((width - (logicalCount mod width)) mod width)`,
the smallest multiple of `width` that is `≥ logicalCount`. -/
def paddedCount (logicalCount width : ℕ) : ℕ :=
  logicalCount + ((width - logicalCount % width) % width)

/-- Modelled from the spec: `vectorsCount = paddedCount / width` (exact). -/
def vectorsCount (logicalCount width : ℕ) : ℕ :=
  paddedCount logicalCount width / width

/-- The container's storage, modelled as a total map from global (scalar)
indices to element values.  Indices outside the allocated range `[0,
paddedCount)` are modelled as holding `0`; the model does not represent
trapping on out-of-bounds access. -/
abbrev Mem : Type := ℤ → ℚ

/-- Modelled from the spec: construction yields a buffer whose pad region
(and, in this total-map model, everything else) is zero-initialized. -/
def construct : Mem := fun _ => 0

/-- Scalar write `m[i] = v`. -/
def setScalar (d : Mem) (i : ℤ) (v : ℚ) : Mem :=
  Function.update d i v

/-- Scalar read `m[i]`. -/
def getScalar (d : Mem) (i : ℤ) : ℚ := d i

/-- Modelled from the spec: a vector load of `W` lanes starting at global
index `base`; lane `l` holds the element at global index `base + l`. -/
def loadVec (W : ℕ) (d : Mem) (base : ℤ) : ℕ → ℚ :=
  fun l => d (base + l)

/-- Modelled from the spec: a vector store of `W` lanes starting at global
index `base`; global index `i` receives lane `i - base` of `x`. -/
def storeVec (W : ℕ) (d : Mem) (base : ℤ) (x : ℕ → ℚ) : Mem :=
  fun i => if base ≤ i ∧ i < base + W then x (i - base).toNat else d i

/-- Modelled from the spec: the base global index of `lastVector()`, the
chunk covering `[paddedCount - width, paddedCount)`. -/
def lastVectorBase (C W : ℕ) : ℤ :=
  (paddedCount C W : ℤ) - (W : ℤ)

/-- Modelled from the spec: `lastVector()` reads the chunk
`[paddedCount - width, paddedCount)`. -/
def lastVector (C W : ℕ) (d : Mem) : ℕ → ℚ :=
  loadVec W d (lastVectorBase C W)

lemma paddedCount_mod (C W : ℕ) (hW : 0 < W) : paddedCount C W % W = 0 := by
  unfold paddedCount
  rcases Nat.eq_zero_or_pos (C % W) with h0 | hpos
  · simp [h0, Nat.sub_zero, Nat.mod_self, h0]
  · have hlt : C % W < W := Nat.mod_lt _ hW
    have hsub : (W - C % W) % W = W - C % W :=
      Nat.mod_eq_of_lt (by omega)
    rw [Nat.add_mod, hsub, hsub]
    have : C % W + (W - C % W) = W := by omega
    rw [this, Nat.mod_self]

lemma le_paddedCount (C W : ℕ) : C ≤ paddedCount C W :=
  Nat.le_add_right _ _

lemma paddedCount_sub_lt (C W : ℕ) (hW : 0 < W) : paddedCount C W - C < W := by
  unfold paddedCount
  have : (W - C % W) % W < W := Nat.mod_lt _ hW
  omega

lemma paddedCount_zero (W : ℕ) : paddedCount 0 W = 0 := by
  unfold paddedCount
  simp [Nat.mod_self]

lemma paddedCount_of_dvd (C W : ℕ) (h : C % W = 0) : paddedCount C W = C := by
  unfold paddedCount
  simp [h, Nat.mod_self]

lemma width_le_paddedCount (C W : ℕ) (hW : 0 < W) (hC : 1 ≤ C) :
    W ≤ paddedCount C W := by
  have hpos : 0 < paddedCount C W := lt_of_lt_of_le hC (le_paddedCount C W)
  exact Nat.le_of_dvd hpos (Nat.dvd_of_mod_eq_zero (paddedCount_mod C W hW))

end Vc

open Vc

/-- C1: for every `logicalCount ≥ 0` and width `W > 0`, the padded size
equals `logicalCount + ((W - logicalCount % W) % W)`; consequently
`paddedCount ≥ logicalCount`, `paddedCount % W = 0`,
`paddedCount - logicalCount < W`, `paddedCount 0 W = 0`, and no padding is
added when `logicalCount` is already a multiple of `W`. -/
theorem padding_computation (C W : ℕ) (hW : 0 < W) :
    paddedCount C W = C + ((W - C % W) % W) ∧
    C ≤ paddedCount C W ∧
    paddedCount C W % W = 0 ∧
    paddedCount C W - C < W ∧
    paddedCount 0 W = 0 ∧
    (C % W = 0 → paddedCount C W = C) :=
  ⟨rfl, le_paddedCount C W, paddedCount_mod C W hW, paddedCount_sub_lt C W hW,
    paddedCount_zero W, paddedCount_of_dvd C W⟩

/-- Witness for C1 at `C = 10`, `W = 4`. -/
theorem padding_computation_witness :
    0 < 4 ∧
    (paddedCount 10 4 = 10 + ((4 - 10 % 4) % 4) ∧
     10 ≤ paddedCount 10 4 ∧
     paddedCount 10 4 % 4 = 0 ∧
     paddedCount 10 4 - 10 < 4 ∧
     paddedCount 0 4 = 0 ∧
     (10 % 4 = 0 → paddedCount 10 4 = 10)) :=
  ⟨by decide, padding_computation 10 4 (by decide)⟩

/-- C2 (amended: `C ≥ 1`): every lane the `lastVector()` chunk touches has a
global index inside `[0, paddedCount)`, so reading or writing the chunk
never touches memory outside the container's allocation. -/
theorem lastVector_in_bounds (C W : ℕ) (hW : 0 < W) (hC : 1 ≤ C)
    (l : ℕ) (hl : l < W) :
    0 ≤ lastVectorBase C W + (l : ℤ) ∧
    lastVectorBase C W + (l : ℤ) < (paddedCount C W : ℤ) := by
  have hle : W ≤ paddedCount C W := width_le_paddedCount C W hW hC
  unfold lastVectorBase
  constructor
  · have : (W : ℤ) ≤ (paddedCount C W : ℤ) := by exact_mod_cast hle
    omega
  · have : (l : ℤ) < (W : ℤ) := by exact_mod_cast hl
    omega

/-- Witness for C2 at `C = 10`, `W = 4`, lane `3`. -/
theorem lastVector_in_bounds_witness :
    0 < 4 ∧ 1 ≤ 10 ∧ 3 < 4 ∧
    (0 ≤ lastVectorBase 10 4 + ((3 : ℕ) : ℤ) ∧
     lastVectorBase 10 4 + ((3 : ℕ) : ℤ) < (paddedCount 10 4 : ℤ)) :=
  ⟨by decide, by decide, by decide,
    lastVector_in_bounds 10 4 (by decide) (by decide) 3 (by decide)⟩

/-- C2 counterexample: at `C = 0`, `W = 4` the claim as stated fails — the
`lastVector()` chunk starts at global index `-4`, which is not inside
`[0, paddedCount) = [0, 0)`, so lane `0` is outside the allocation. -/
theorem lastVector_oob_at_zero :
    ¬ (0 ≤ lastVectorBase 0 4 + ((0 : ℕ) : ℤ) ∧
       lastVectorBase 0 4 + ((0 : ℕ) : ℤ) < (paddedCount 0 4 : ℤ)) := by
  decide

/-- C3: storing a vector value `x` into chunk `k` of a container and then
loading chunk `k` yields `x` in every lane. -/
theorem store_load_roundtrip (C W : ℕ) (hW : 0 < W) (d : Mem) (x : ℕ → ℚ)
    (k : ℕ) (hk : k < vectorsCount C W) (l : ℕ) (hl : l < W) :
    loadVec W (storeVec W d ((k : ℤ) * W) x) ((k : ℤ) * W) l = x l := by
  unfold loadVec storeVec
  have h1 : (k : ℤ) * W ≤ (k : ℤ) * W + l := by
    have : (0 : ℤ) ≤ (l : ℤ) := Int.ofNat_nonneg l
    omega
  have h2 : (k : ℤ) * W + (l : ℤ) < (k : ℤ) * W + W := by
    have : (l : ℤ) < (W : ℤ) := by exact_mod_cast hl
    omega
  rw [if_pos ⟨h1, h2⟩]
  simp

/-- Witness for C3 at `C = 10`, `W = 4`, chunk `2`, lane `1`. -/
theorem store_load_roundtrip_witness :
    0 < 4 ∧ 2 < vectorsCount 10 4 ∧ 1 < 4 ∧
    loadVec 4 (storeVec 4 construct (((2 : ℕ) : ℤ) * 4) (fun l => (l : ℚ) + 7))
      (((2 : ℕ) : ℤ) * 4) 1 = (1 : ℚ) + 7 :=
  ⟨by decide, by decide, by decide,
    store_load_roundtrip 10 4 (by decide) construct (fun l => (l : ℚ) + 7) 2
      (by decide) 1 (by decide)⟩

namespace Vc

/-- Write vector value `g k` into chunk `k`, for every chunk `k < n`
(modelling a caller loop `for (k = 0; k < n; ++k) m.vector(k) = g(k)`). -/
def storeChunks (W : ℕ) (g : ℕ → ℕ → ℚ) : ℕ → Mem → Mem
  | 0, d => d
  | k + 1, d => storeVec W (storeChunks W g k d) ((k : ℤ) * W) (g k)

/-- Write scalar value `v` to every index `i < n`
(modelling a caller loop `for (i = 0; i < n; ++i) m[i] = v`). -/
def fillUpTo (v : ℚ) : ℕ → Mem → Mem
  | 0, d => d
  | i + 1, d => setScalar (fillUpTo v i d) (i : ℤ) v

lemma storeChunks_read (W : ℕ) (g : ℕ → ℕ → ℚ) (d : Mem) (n k l : ℕ)
    (hk : k < n) (hl : l < W) :
    storeChunks W g n d ((k : ℤ) * W + l) = g k l := by
  induction n with
  | zero => omega
  | succ m ih =>
    rw [storeChunks, storeVec]
    rcases Nat.lt_succ_iff_lt_or_eq.mp hk with hkm | hkm
    · have hout : ¬ ((m : ℤ) * W ≤ (k : ℤ) * W + l) := by
        have hk1 : (k : ℤ) + 1 ≤ (m : ℤ) := by exact_mod_cast hkm
        have hlW : (l : ℤ) < (W : ℤ) := by exact_mod_cast hl
        have : ((k : ℤ) + 1) * W ≤ (m : ℤ) * W := by
          apply mul_le_mul_of_nonneg_right hk1 (by positivity)
        nlinarith
      rw [if_neg (fun hc => hout hc.1)]
      exact ih hkm
    · subst hkm
      have hlW : (l : ℤ) < (W : ℤ) := by exact_mod_cast hl
      have hin : (k : ℤ) * W ≤ (k : ℤ) * W + l ∧
          (k : ℤ) * W + l < (k : ℤ) * W + W := by
        constructor
        · have : (0 : ℤ) ≤ (l : ℤ) := Int.ofNat_nonneg l
          omega
        · omega
      rw [if_pos hin]
      simp

lemma storeChunks_read_out (W : ℕ) (g : ℕ → ℕ → ℚ) (d : Mem) (n : ℕ) (i : ℤ)
    (hi : (n : ℤ) * W ≤ i) :
    storeChunks W g n d i = d i := by
  induction n with
  | zero => rfl
  | succ m ih =>
    rw [storeChunks, storeVec]
    have hsucc : ((m + 1 : ℕ) : ℤ) * W = (m : ℤ) * W + W := by
      push_cast
      ring
    rw [hsucc] at hi
    rw [if_neg (fun hc => absurd hc.2 (not_lt.mpr hi))]
    apply ih
    linarith [Int.ofNat_nonneg W]

lemma fillUpTo_read (v : ℚ) (d : Mem) (n : ℕ) (i : ℤ) :
    fillUpTo v n d i = if 0 ≤ i ∧ i < n then v else d i := by
  induction n with
  | zero =>
    rw [fillUpTo]
    simp only [Nat.cast_zero]
    rw [if_neg (by omega)]
  | succ m ih =>
    rw [fillUpTo, setScalar, Function.update_apply, ih]
    by_cases hi : i = (m : ℤ)
    · subst hi
      rw [if_pos rfl, if_pos ⟨Int.ofNat_nonneg m, by push_cast; omega⟩]
    · rw [if_neg hi]
      by_cases hr : 0 ≤ i ∧ i < (m : ℤ)
      · rw [if_pos hr, if_pos ⟨hr.1, by push_cast; omega⟩]
      · rw [if_neg hr, if_neg (by push_cast at hr ⊢; omega)]

/-- The elementwise pass of a program written against the common operation
surface: load each chunk of the two inputs, combine lanewise with `f`, and
store the result chunk; `W` is the backend's lane width.  The scalar
backend is the instance `W = 1`. -/
def mapElementwise (W C : ℕ) (f : ℚ → ℚ → ℚ) (a b : Mem) : Mem :=
  storeChunks W
    (fun k l => f (loadVec W a ((k : ℤ) * W) l) (loadVec W b ((k : ℤ) * W) l))
    (vectorsCount C W) construct

lemma lt_vectorsCount (C W i : ℕ) (hW : 0 < W) (hi : i < C) :
    i / W < vectorsCount C W := by
  unfold vectorsCount
  have hdvd : W ∣ paddedCount C W :=
    Nat.dvd_of_mod_eq_zero (paddedCount_mod C W hW)
  exact Nat.div_lt_div_of_lt_of_dvd hdvd (lt_of_lt_of_le hi (le_paddedCount C W))

lemma mapElementwise_read (W C : ℕ) (hW : 0 < W) (f : ℚ → ℚ → ℚ)
    (a b : Mem) (i : ℕ) (hi : i < C) :
    mapElementwise W C f a b (i : ℤ) = f (a i) (b i) := by
  unfold mapElementwise
  have hdm : i / W * W + i % W = i := Nat.div_add_mod' i W
  have hcast : ((i / W : ℕ) : ℤ) * W + ((i % W : ℕ) : ℤ) = (i : ℤ) := by
    exact_mod_cast hdm
  rw [← hcast, storeChunks_read W _ construct _ _ _
    (lt_vectorsCount C W i hW hi) (Nat.mod_lt _ hW)]
  unfold loadVec
  rw [hcast]

end Vc

/-- C5: an elementwise program written against the common operation surface
produces identical results under any two backends (lane widths `W1`, `W2`),
and in particular agrees with the scalar backend (`W = 1`), at every logical
index. -/
theorem backend_interchangeable (C : ℕ) (f : ℚ → ℚ → ℚ) (a b : Mem)
    (W1 W2 : ℕ) (h1 : 0 < W1) (h2 : 0 < W2) (i : ℕ) (hi : i < C) :
    mapElementwise W1 C f a b (i : ℤ) = mapElementwise W2 C f a b (i : ℤ) ∧
    mapElementwise W1 C f a b (i : ℤ) = mapElementwise 1 C f a b (i : ℤ) := by
  rw [mapElementwise_read W1 C h1 f a b i hi,
      mapElementwise_read W2 C h2 f a b i hi,
      mapElementwise_read 1 C Nat.one_pos f a b i hi]
  exact ⟨rfl, rfl⟩

/-- Witness for C5: widths `4` and `2` against the scalar backend, on
addition of a ramp and a broadcast constant, at logical index `3` of `5`. -/
theorem backend_interchangeable_witness :
    0 < 4 ∧ 0 < 2 ∧ 3 < 5 ∧
    (mapElementwise 4 5 (fun x y => x + y) (fun j => (j : ℚ)) (fun _ => 2)
        ((3 : ℕ) : ℤ) =
      mapElementwise 2 5 (fun x y => x + y) (fun j => (j : ℚ)) (fun _ => 2)
        ((3 : ℕ) : ℤ) ∧
     mapElementwise 4 5 (fun x y => x + y) (fun j => (j : ℚ)) (fun _ => 2)
        ((3 : ℕ) : ℤ) =
      mapElementwise 1 5 (fun x y => x + y) (fun j => (j : ℚ)) (fun _ => 2)
        ((3 : ℕ) : ℤ)) :=
  ⟨by decide, by decide, by decide,
    backend_interchangeable 5 (fun x y => x + y) (fun j => (j : ℚ)) (fun _ => 2)
      4 2 (by decide) (by decide) 3 (by decide)⟩

/-- C6: after constructing a container of logical size `S` (with
`1 ≤ S ≤ 128`) and writing the value `S` to every scalar index in `[0, S)`,
every scalar read at an index `< S` returns `S`, and every vector-chunk
read returns `S` in every lane whose global index is a valid logical
index. -/
theorem fill_readback (W S : ℕ) (hW : 0 < W) (hS1 : 1 ≤ S) (hS2 : S ≤ 128) :
    (∀ i : ℕ, i < S →
      getScalar (fillUpTo (S : ℚ) S construct) (i : ℤ) = (S : ℚ)) ∧
    (∀ k l : ℕ, k < vectorsCount S W → l < W → k * W + l < S →
      loadVec W (fillUpTo (S : ℚ) S construct) ((k : ℤ) * W) l = (S : ℚ)) := by
  constructor
  · intro i hi
    rw [getScalar, fillUpTo_read]
    rw [if_pos ⟨Int.ofNat_nonneg i, by exact_mod_cast hi⟩]
  · intro k l hk hl hg
    rw [loadVec]
    have hcast : (k : ℤ) * W + (l : ℤ) = ((k * W + l : ℕ) : ℤ) := by
      push_cast
      ring
    rw [hcast, fillUpTo_read]
    rw [if_pos ⟨Int.ofNat_nonneg _, by exact_mod_cast hg⟩]

/-- Witness for C6 at `S = 6`, `W = 4`: scalar read at `5` and chunk `1`,
lane `1` (global index `5`). -/
theorem fill_readback_witness :
    0 < 4 ∧ 1 ≤ 6 ∧ 6 ≤ 128 ∧ 5 < 6 ∧
    1 < vectorsCount 6 4 ∧ 1 < 4 ∧ 1 * 4 + 1 < 6 ∧
    getScalar (fillUpTo ((6 : ℕ) : ℚ) 6 construct) ((5 : ℕ) : ℤ) = ((6 : ℕ) : ℚ) ∧
    loadVec 4 (fillUpTo ((6 : ℕ) : ℚ) 6 construct) (((1 : ℕ) : ℤ) * 4) 1 =
      ((6 : ℕ) : ℚ) :=
  ⟨by decide, by decide, by decide, by decide, by decide, by decide, by decide,
    (fill_readback 4 6 (by decide) (by decide) (by decide)).1 5 (by decide),
    (fill_readback 4 6 (by decide) (by decide) (by decide)).2 1 1 (by decide)
      (by decide) (by decide)⟩

/-- C10: after storing a vector value into every chunk index in
`[0, vectorsCount)`, every lane of every chunk — including lanes whose
global index lies in the pad region `[logicalCount, paddedCount)` — reads
back the stored lane value, because the chunk stores cover the entire
padded buffer. -/
theorem pad_lanes_readback (C W : ℕ) (hW : 0 < W) (d : Mem) (x : ℕ → ℚ)
    (k l : ℕ) (hk : k < vectorsCount C W) (hl : l < W) :
    loadVec W (storeChunks W (fun _ lane => x lane) (vectorsCount C W) d)
      ((k : ℤ) * W) l = x l := by
  rw [loadVec]
  exact storeChunks_read W _ d _ k l hk hl

/-- Witness for C10 at `C = 10`, `W = 4`: lane `3` of chunk `2` has global
index `11`, which lies in the pad region `[10, 12)`, and still reads back
the stored lane value. -/
theorem pad_lanes_readback_witness :
    0 < 4 ∧ 2 < vectorsCount 10 4 ∧ 3 < 4 ∧ 10 ≤ 2 * 4 + 3 ∧
    loadVec 4 (storeChunks 4 (fun _ lane => ((lane : ℚ) * 3)) (vectorsCount 10 4)
      construct) (((2 : ℕ) : ℤ) * 4) 3 = ((3 : ℕ) : ℚ) * 3 :=
  ⟨by decide, by decide, by decide, by decide,
    pad_lanes_readback 10 4 (by decide) construct (fun lane => (lane : ℚ) * 3)
      2 3 (by decide) (by decide)⟩

namespace Vc

/-- The reciprocal constant `0.5 / h` hoisted out of the example's loops. -/
def oneOver2h (h : ℚ) : ℚ := (1 / 2) / h

/-- One store of the example's main loop:
`dy.vector(k, 1) = (y.vector(k, 2) - y.vector(k)) * oneOver2h`. -/
def fdStoreChunk (W : ℕ) (h : ℚ) (y dy : Mem) (k : ℕ) : Mem :=
  storeVec W dy ((k : ℤ) * W + 1)
    (fun l =>
      (loadVec W y ((k : ℤ) * W + 2) l - loadVec W y ((k : ℤ) * W) l) *
        oneOver2h h)

/-- The example's four-times unrolled loop body at loop counter `i`:
chunks `i`, `i+1`, `i+2`, `i+3` are processed in order. -/
def fdBody (W : ℕ) (h : ℚ) (y dy : Mem) (i : ℕ) : Mem :=
  fdStoreChunk W h y
    (fdStoreChunk W h y
      (fdStoreChunk W h y
        (fdStoreChunk W h y dy i)
        (i + 1))
      (i + 2))
    (i + 3)

/-- The example's main loop `for (i = 0; i < bound; i += 4)`, written with
explicit fuel (any fuel `≥ bound` runs the loop to completion). -/
def fdLoop (W : ℕ) (h : ℚ) (y : Mem) (bound : ℕ) : ℕ → ℕ → Mem → Mem
  | 0, _, dy => dy
  | fuel + 1, i, dy =>
    if i < bound then fdLoop W h y bound fuel (i + 4) (fdBody W h y dy i)
    else dy

/-- The vectorized finite-difference pass of `examples/finitediff/main.cpp`
(lines 160–222), over a container of logical size `N` and lane width `W`:
left scalar border, the unrolled main loop with bound `(entriesCount - 2) /
W`, the shifted last-chunk step using `lastVector()` and `vector(i, -2)` /
`vector(i, -1)`, and finally the scalar right border
`dy[N-1] = (y[N-1] - y[N-2]) / h`. -/
def finiteDiffVec (N W : ℕ) (h : ℚ) (y : Mem) : Mem :=
  let dy0 : Mem := construct
  let dy1 := setScalar dy0 0 ((y 1 - y 0) / h)
  let dy2 := fdLoop W h y ((N - 2) / W) (N + 4) 0 dy1
  let iLast : ℕ := vectorsCount N W - 1
  let dy3 := storeVec W dy2 ((iLast : ℤ) * W - 1)
    (fun l =>
      (lastVector N W y l - loadVec W y ((iLast : ℤ) * W - 2) l) *
        oneOver2h h)
  setScalar dy3 ((N : ℤ) - 1) ((y ((N : ℤ) - 1) - y ((N : ℤ) - 2)) / h)

/-- The ramp `y[i] = i` held in a container of logical size `n`; the pad
region and everything outside the allocation hold the construction value
`0`. -/
def rampMem (n : ℕ) : Mem :=
  fun i => if 0 ≤ i ∧ i < n then (i : ℚ) else 0

end Vc

/-- C9: after the vectorized finite-difference pass completes — the shifted
last-chunk store `dy.vector(vectorsCount - 1, -1)` may overwrite entry
`N - 1`, but the scalar assignment `dy[N-1] = (y[N-1] - y[N-2]) / h`
executes after it — entry `N - 1` holds the one-sided difference, for every
`N ≥ 2` and width `W ≥ 1`, regardless of whether `N` is a multiple of the
vector width. -/
theorem right_border_one_sided (N W : ℕ) (hN : 2 ≤ N) (hW : 0 < W)
    (h : ℚ) (y : Mem) :
    getScalar (finiteDiffVec N W h y) ((N : ℤ) - 1) =
      (y ((N : ℤ) - 1) - y ((N : ℤ) - 2)) / h := by
  simp only [finiteDiffVec, getScalar, setScalar, Function.update_same]

/-- Witness for C9 at `N = 10` (not a multiple of `W = 4`), `h = 1`, on the
ramp. -/
theorem right_border_one_sided_witness :
    2 ≤ 10 ∧ 0 < 4 ∧
    getScalar (finiteDiffVec 10 4 1 (rampMem 10)) (((10 : ℕ) : ℤ) - 1) =
      (rampMem 10 (((10 : ℕ) : ℤ) - 1) - rampMem 10 (((10 : ℕ) : ℤ) - 2)) / 1 :=
  ⟨by decide, by decide,
    right_border_one_sided 10 4 (by decide) (by decide) 1 (rampMem 10)⟩

set_option maxRecDepth 8000

set_option maxHeartbeats 1600000

/-- C4: for the container of logical size `N = 10` and width `W = 4`
holding the ramp `y[i] = i`, the vectorized centered-difference pass (the
shifted chunk accesses `vector(chunkIndex, ±1)` / `vector(chunkIndex, ±2)`
over the chunks, together with the explicit scalar handling of index `0`
and index `N-1`) produces at every interior index `1 ≤ i ≤ N-2` exactly
the value of the scalar central-difference formula
`(y[i+1] - y[i-1]) / (2h)`. -/
theorem fd_central_difference (h : ℚ) (hh : h ≠ 0) (i : ℕ)
    (hi1 : 1 ≤ i) (hi2 : i ≤ 8) :
    getScalar (finiteDiffVec 10 4 h (rampMem 10)) (i : ℤ) =
      (rampMem 10 ((i : ℤ) + 1) - rampMem 10 ((i : ℤ) - 1)) / (2 * h) := by
  interval_cases i <;>
    norm_num [finiteDiffVec, fdLoop, fdBody, fdStoreChunk, setScalar, storeVec,
      loadVec, lastVector, lastVectorBase, oneOver2h, rampMem, vectorsCount,
      paddedCount, getScalar, Function.update_apply] <;>
    field_simp

/-- Witness for C4 at `h = 1`, interior index `i = 5`. -/
theorem fd_central_difference_witness :
    (1 : ℚ) ≠ 0 ∧ 1 ≤ 5 ∧ 5 ≤ 8 ∧
    getScalar (finiteDiffVec 10 4 1 (rampMem 10)) ((5 : ℕ) : ℤ) =
      (rampMem 10 (((5 : ℕ) : ℤ) + 1) - rampMem 10 (((5 : ℕ) : ℤ) - 1)) /
        (2 * 1) :=
  ⟨by norm_num, by decide, by decide,
    fd_central_difference 1 (by norm_num) 5 (by decide) (by decide)⟩

namespace Vc

/-- Modelled from the spec: the operations a caller can issue against a
container's storage, including the advisory prefetch hints
(`prefetchForOneRead`, `prefetchForModify`), which name an address and a
usage intention. -/
inductive Op where
  | setScalarOp : ℤ → ℚ → Op
  | storeVecOp : ℕ → ℤ → (ℕ → ℚ) → Op
  | prefetchForOneRead : ℤ → Op
  | prefetchForModify : ℤ → Op

/-- Modelled from the spec: executing one operation; prefetch hints are
advisory only and touch no architectural state (a correct implementation
may treat them as no-ops). -/
def execOp (d : Mem) : Op → Mem
  | .setScalarOp i v => setScalar d i v
  | .storeVecOp W base x => storeVec W d base x
  | .prefetchForOneRead _ => d
  | .prefetchForModify _ => d

/-- Executing a program, i.e. a sequence of operations, left to right. -/
def execProg (d : Mem) : List Op → Mem
  | [] => d
  | op :: rest => execProg (execOp d op) rest

/-- Recognizes the two prefetch hints. -/
def isPrefetch : Op → Bool
  | .prefetchForOneRead _ => true
  | .prefetchForModify _ => true
  | .setScalarOp _ _ => false
  | .storeVecOp _ _ _ => false

/-- Modelled from the spec: container construction; `allocOk` models
whether the platform can allocate the aligned buffer.  On failure the call
yields no container at all; on success the container carries its logical
count, width, and a fully initialized (pad-zeroed) buffer. -/
def constructChecked (logicalCount width : ℕ) (allocOk : Bool) :
    Option (ℕ × ℕ × Mem) :=
  if allocOk then some (logicalCount, width, construct) else none

end Vc

/-- C7: prefetch hints are semantically transparent — running any program
with every prefetch hint deleted produces exactly the same final state as
running it with the hints in place, from every initial state. -/
theorem prefetch_transparent (p : List Op) (d : Mem) :
    execProg d (p.filter (fun op => ! (Vc.isPrefetch op))) = execProg d p := by
  induction p generalizing d with
  | nil => rfl
  | cons op rest ih =>
    cases op with
    | setScalarOp i v =>
      rw [List.filter_cons]
      simp only [isPrefetch, Bool.not_false, if_pos]
      rw [execProg, execProg]
      exact ih _
    | storeVecOp W base x =>
      rw [List.filter_cons]
      simp only [isPrefetch, Bool.not_false, if_pos]
      rw [execProg, execProg]
      exact ih _
    | prefetchForOneRead a =>
      rw [List.filter_cons]
      simp only [isPrefetch, Bool.not_true, if_neg]
      rw [execProg, execOp]
      exact ih d
    | prefetchForModify a =>
      rw [List.filter_cons]
      simp only [isPrefetch, Bool.not_true, if_neg]
      rw [execProg, execOp]
      exact ih d

/-- C8: allocation failure is the only failure of container construction;
on failure the construction call yields nothing (no partially initialized
container is observable), and every successfully constructed container is
fully initialized: it carries the requested logical count and width, and
every element of its buffer — pad region included — holds the zero value. -/
theorem construction_atomic (C W : ℕ) (ok : Bool) :
    (ok = false → constructChecked C W ok = none) ∧
    (∀ r, constructChecked C W ok = some r →
      r.1 = C ∧ r.2.1 = W ∧
      ∀ i : ℤ, (C : ℤ) ≤ i → i < (paddedCount C W : ℤ) → r.2.2 i = 0) := by
  constructor
  · intro hok
    rw [constructChecked, hok]
    rfl
  · intro r hr
    cases ok with
    | false => exact absurd hr (by rw [constructChecked]; simp)
    | true =>
      rw [constructChecked, if_pos rfl] at hr
      cases Option.some_inj.mp hr
      exact ⟨rfl, rfl, fun i _ _ => rfl⟩

/-- Witness for C8 at `C = 10`, `W = 4`: failed construction yields
nothing; successful construction yields a container whose pad entry at
global index `10` is zero. -/
theorem construction_atomic_witness :
    constructChecked 10 4 false = none ∧
    (10, 4, construct).1 = 10 ∧
    (10, 4, (construct : Mem)).2.2 ((10 : ℕ) : ℤ) = 0 :=
  ⟨(construction_atomic 10 4 false).1 rfl,
    ((construction_atomic 10 4 true).2 (10, 4, construct) rfl).1,
    ((construction_atomic 10 4 true).2 (10, 4, construct) rfl).2.2
      ((10 : ℕ) : ℤ) (by decide) (by decide)⟩
